import Mathlib

/-!
Shallow embedding of `src/tefs/utils.py`: the two feature-selection
functions `select_features` (ThresholdSelector) and `select_n_features`
(CountSelector) that scan a list of iteration records.

Modelling conventions:
* scores are rationals (`ℚ`); the Python `float` arithmetic here is only
  order comparison, faithfully represented;
* an iteration record's `TE` entry is `Option ℚ`: `some q` when the value
  is numeric (passes `isinstance(x, (float, int))`), `none` otherwise;
* a record's `feature_scores` entry is `Option (List (Int × ℚ))`: `some d`
  when the value is a dict (modelled as its ordered key/value pairs, keys
  distinct as in a Python dict), `none` when it is not a dict;
* every way the Python functions can fail to return a list is a
  constructor of `PyError`: the `assert` statements, the `ValueError`
  raised by `min()`/`max()` on an empty sequence, the `IndexError` of
  `results[-1]` on an empty list, the `TypeError` of `list(None)`, the
  `AttributeError` of `.keys()` on a non-dict, the `TypeError` of `len()`
  on a non-sized object, and the implicit `return None` fall-through;
* the returned feature collections are compared as sets of identifiers,
  so the functions return `Finset Int` (the Python lists' element sets).
-/

set_option autoImplicit false
set_option linter.unnecessarySeqFocus false

deriving instance DecidableEq for Except

namespace Tefs

/-- One step of a greedy selection trace (`IterationResult` in the source):
`TE` is the aggregate transfer-entropy score (`none` models a non-numeric
value), `feature_scores` the per-feature score mapping (`none` models a
non-dict value). -/
structure IterationResult where
  TE : Option ℚ
  feature_scores : Option (List (Int × ℚ))
deriving DecidableEq

/-- Keys of a feature-score dict, in insertion order (`d.keys()`). -/
def keysList (fs : List (Int × ℚ)) : List Int := fs.map Prod.fst

/-- Key set of a feature-score dict (`set(d.keys())`). -/
def keysFinset (fs : List (Int × ℚ)) : Finset Int := (keysList fs).toFinset

/-- Values of a feature-score dict (`d.values()`). -/
def valuesList (fs : List (Int × ℚ)) : List ℚ := fs.map Prod.snd

/-- Python `min` over a sequence: `none` models the `ValueError` on an
empty sequence. -/
def pymin : List ℚ → Option ℚ
  | [] => none
  | x :: l => some (l.foldl min x)

/-- Python `max` over a sequence: `none` models the `ValueError` on an
empty sequence. -/
def pymax : List ℚ → Option ℚ
  | [] => none
  | x :: l => some (l.foldl max x)

/-- Every way a call can end without returning a list of features, one
constructor per failure site of the source. -/
inductive PyError where
  /-- `assert direction in ["forward", "backward"]` failed. -/
  | assertInvalidDirection
  /-- `assert isinstance(iteration["TE"], (float, int))` failed. -/
  | assertTENotNumber
  /-- `assert isinstance(iteration["feature_scores"], dict)` failed. -/
  | assertFeatureScoresNotDict
  /-- `ValueError` from `min()` or `max()` on an empty sequence. -/
  | valueErrorEmptyMinMax
  /-- `IndexError` from `results[-1]` or `results[0]` on an empty list. -/
  | indexErrorEmptyResults
  /-- `TypeError` from `list(None)` when `initial_features` was never set. -/
  | typeErrorNoneNotIterable
  /-- `AttributeError` from `.keys()` on a non-dict value. -/
  | attributeErrorNoKeys
  /-- `TypeError` from `len()` on a non-sized value. -/
  | typeErrorNoLen
  /-- `assert n <= num_total_features` failed. -/
  | assertNGreaterThanTotal
  /-- `assert n > 0` failed. -/
  | assertNNotPositive
  /-- The function fell off its end and implicitly returned `None`. -/
  | returnedNone
deriving DecidableEq

/-- The spec's `InvalidArgument` class of failures (§7): bad direction or
an `n` outside its bounds. -/
def isInvalidArgument : PyError → Bool
  | .assertInvalidDirection => true
  | .assertNGreaterThanTotal => true
  | .assertNNotPositive => true
  | _ => false

/-- The spec's `InvalidRecord` class of failures (§7): a record whose
aggregate score is non-numeric or whose feature-score mapping is malformed
(not a dict, or empty where a minimum/maximum is required). -/
def isInvalidRecord : PyError → Bool
  | .assertTENotNumber => true
  | .assertFeatureScoresNotDict => true
  | .valueErrorEmptyMinMax => true
  | _ => false

/-- The spec's `NotFound` class of failures (§7): the CountSelector scan
exhausted the trace without a match (the source's implicit `return None`). -/
def isNotFound : PyError → Bool
  | .returnedNone => true
  | _ => false

/-- `true` iff the call ended in an `InvalidArgument`-class failure. -/
def resultIsInvalidArgument : Except PyError (Finset Int) → Bool
  | .error e => isInvalidArgument e
  | .ok _ => false

/-- `true` iff the call ended in an `InvalidRecord`-class failure. -/
def resultIsInvalidRecord : Except PyError (Finset Int) → Bool
  | .error e => isInvalidRecord e
  | .ok _ => false

/-- `true` iff the call ended in a `NotFound`-class failure. -/
def resultIsNotFound : Except PyError (Finset Int) → Bool
  | .error e => isNotFound e
  | .ok _ => false

/-- Outcome of the scanning loop of `select_features`: either some
iteration fired the stop condition and returned a selection, or the loop
ran off the end of `results` with the captured `initial_features`. -/
inductive ScanOutcome where
  | stopped (selected : Finset Int)
  | exhausted (initial_features : Option (List Int))
deriving DecidableEq

/-- The `for iteration in results:` loop of `select_features`
(utils.py lines 35-66), carrying the `stop` flag and the captured
`initial_features` exactly as the source does. -/
def scanLoop (threshold : ℚ) (direction : String) :
    Bool → Option (List Int) → List IterationResult → Except PyError ScanOutcome
  | _, initial_features, [] => .ok (.exhausted initial_features)
  | stop, initial_features, iteration :: rest =>
    match iteration.TE with
    | none => .error .assertTENotNumber
    | some te =>
      match iteration.feature_scores with
      | none => .error .assertFeatureScoresNotDict
      | some fs =>
        -- line 39-40: capture the initial features at the first record
        let init : List Int := initial_features.getD (keysList fs)
        -- line 43: `if iteration["TE"] > threshold: stop = True`
        let stop : Bool := if threshold < te then true else stop
        -- lines 49-56: the sign checks; Python's `and` short-circuits, so
        -- `min`/`max` is only evaluated on the matching direction
        let signChecked : Except PyError Bool :=
          if direction = "backward" then
            match pymin (valuesList fs) with
            | none => .error .valueErrorEmptyMinMax
            | some m => .ok (if 0 < m then true else stop)
          else if direction = "forward" then
            match pymax (valuesList fs) with
            | none => .error .valueErrorEmptyMinMax
            | some m => .ok (if m < 0 then true else stop)
          else .ok stop
        match signChecked with
        | .error e => .error e
        | .ok stop =>
          -- lines 59-66: `if stop: return ...`; with a direction that is
          -- neither string Python falls through and the loop continues
          if stop then
            if direction = "backward" then .ok (.stopped (keysFinset fs))
            else if direction = "forward" then
              .ok (.stopped (init.toFinset \ keysFinset fs))
            else scanLoop threshold direction stop (some init) rest
          else scanLoop threshold direction stop (some init) rest

/-- `select_features(results, threshold, direction)` (utils.py lines
8-76): the ThresholdSelector. -/
def select_features (results : List IterationResult) (threshold : ℚ)
    (direction : String) : Except PyError (Finset Int) :=
  -- line 28: `assert direction in ["forward", "backward"]`
  if ¬ (direction = "forward" ∨ direction = "backward") then
    .error .assertInvalidDirection
  else
    match scanLoop threshold direction false none results with
    | .error e => .error e
    | .ok (.stopped selected) => .ok selected
    | .ok (.exhausted initial_features) =>
      -- lines 71-76: the end-of-trace fallbacks
      if direction = "backward" then
        match results.getLast? with
        | none => .error .indexErrorEmptyResults
        | some last =>
          match last.feature_scores with
          | none => .error .attributeErrorNoKeys
          | some fs => .ok (keysFinset fs)
      else if direction = "forward" then
        match initial_features with
        | none => .error .typeErrorNoneNotIterable
        | some init => .ok init.toFinset
      else .error .returnedNone

/-- The backward loop of `select_n_features` (utils.py lines 107-110):
return the keys of the first record with exactly `n` keys; falling off the
end is the source's implicit `return None`. -/
def backwardCountLoop (n : Int) : List IterationResult → Except PyError (Finset Int)
  | [] => .error .returnedNone
  | iteration :: rest =>
    match iteration.feature_scores with
    | none => .error .attributeErrorNoKeys
    | some fs =>
      if ((keysList fs).length : Int) = n then .ok (keysFinset fs)
      else backwardCountLoop n rest

/-- The forward loop of `select_n_features` (utils.py lines 114-127):
capture the initial features, return `initial - keys` at the first record
with `num_total - n` keys, and fall back to the initial features at the
end of the trace. -/
def forwardCountLoop (n num_total : Int) :
    Option (List Int) → List IterationResult → Except PyError (Finset Int)
  | initial_features, [] =>
    match initial_features with
    | none => .error .typeErrorNoneNotIterable
    | some init => .ok init.toFinset
  | initial_features, iteration :: rest =>
    match iteration.feature_scores with
    | none => .error .attributeErrorNoKeys
    | some fs =>
      let init : List Int := initial_features.getD (keysList fs)
      if ((keysList fs).length : Int) = num_total - n then
        .ok (init.toFinset \ keysFinset fs)
      else forwardCountLoop n num_total (some init) rest

/-- `select_n_features(results, n, direction)` (utils.py lines 78-127):
the CountSelector. -/
def select_n_features (results : List IterationResult) (n : Int)
    (direction : String) : Except PyError (Finset Int) :=
  -- line 98: `assert direction in ["forward", "backward"]`
  if ¬ (direction = "forward" ∨ direction = "backward") then
    .error .assertInvalidDirection
  else
    -- line 99: `num_total_features = len(results[0]["feature_scores"])`
    match results with
    | [] => .error .indexErrorEmptyResults
    | first :: _ =>
      match first.feature_scores with
      | none => .error .typeErrorNoLen
      | some fs0 =>
        let num_total_features : Int := (keysList fs0).length
        -- line 100: `assert n <= num_total_features`
        if ¬ (n ≤ num_total_features) then .error .assertNGreaterThanTotal
        -- line 101: `assert n > 0`
        else if ¬ (0 < n) then .error .assertNNotPositive
        else if direction = "backward" then backwardCountLoop n results
        else if direction = "forward" then
          forwardCountLoop n num_total_features none results
        else .error .returnedNone

/-- What lines 59-66 return when the stop condition fires on a record with
dict `fs`, given the captured initial features. -/
def stopSelection (direction : String) (initial_features : List Int)
    (fs : List (Int × ℚ)) : Finset Int :=
  if direction = "backward" then keysFinset fs
  else initial_features.toFinset \ keysFinset fs

/-- A record on which neither stop condition of `select_features` fires for
the given threshold and direction, and which passes the record-shape
checks: its score is numeric and at most the threshold, its feature scores
form a dict, and the dict has a value of the non-stopping sign for the
direction (which also makes it non-empty). -/
def NoStopRecord (threshold : ℚ) (direction : String) (r : IterationResult) : Prop :=
  ∃ te fs, r.TE = some te ∧ r.feature_scores = some fs ∧ te ≤ threshold ∧
    (direction = "backward" → ∃ p ∈ valuesList fs, p ≤ 0) ∧
    (direction = "forward" → ∃ p ∈ valuesList fs, 0 ≤ p)

/-- From the spec's words (§4.2, backward CountSelector): the first record
of the trace whose `featureScores` key-count equals `n`. -/
def firstRecordWithCount (n : Int) (results : List IterationResult) :
    Option IterationResult :=
  results.find? fun r =>
    match r.feature_scores with
    | some fs => ((keysList fs).length : Int) == n
    | none => false

/-- The key sets of the records of a trace (those records that carry a
dict), used to say that a result is "the key set of a record of the
trace". -/
def traceKeySets (results : List IterationResult) : List (Finset Int) :=
  results.filterMap fun r => r.feature_scores.map keysFinset

/-! ### Helper lemmas about the sign conditions -/

theorem foldl_min_pos_iff (l : List ℚ) (x : ℚ) :
    0 < l.foldl min x ↔ 0 < x ∧ ∀ v ∈ l, 0 < v := by
  induction l generalizing x with
  | nil => simp
  | cons y t ih =>
    rw [List.foldl_cons, ih]
    simp only [List.mem_cons, lt_min_iff]
    constructor
    · rintro ⟨⟨hx, hy⟩, ht⟩
      exact ⟨hx, fun v hv => hv.elim (fun h => h ▸ hy) (ht v)⟩
    · rintro ⟨hx, h⟩
      exact ⟨⟨hx, h y (Or.inl rfl)⟩, fun v hv => h v (Or.inr hv)⟩

theorem foldl_max_neg_iff (l : List ℚ) (x : ℚ) :
    l.foldl max x < 0 ↔ x < 0 ∧ ∀ v ∈ l, v < 0 := by
  induction l generalizing x with
  | nil => simp
  | cons y t ih =>
    rw [List.foldl_cons, ih]
    simp only [List.mem_cons, max_lt_iff]
    constructor
    · rintro ⟨⟨hx, hy⟩, ht⟩
      exact ⟨hx, fun v hv => hv.elim (fun h => h ▸ hy) (ht v)⟩
    · rintro ⟨hx, h⟩
      exact ⟨⟨hx, h y (Or.inl rfl)⟩, fun v hv => h v (Or.inr hv)⟩

theorem pymin_not_pos {l : List ℚ} {m p : ℚ} (h : pymin l = some m)
    (hp : p ∈ l) (hp0 : p ≤ 0) : ¬ 0 < m := by
  match l, hp with
  | x :: t, hp =>
    simp only [pymin, Option.some.injEq] at h
    subst h
    rw [foldl_min_pos_iff]
    rintro ⟨hx, ht⟩
    rcases List.mem_cons.1 hp with h | h
    · exact absurd (h ▸ hx) (not_lt.2 hp0)
    · exact absurd (ht p h) (not_lt.2 hp0)

theorem pymax_not_neg {l : List ℚ} {m p : ℚ} (h : pymax l = some m)
    (hp : p ∈ l) (hp0 : 0 ≤ p) : ¬ m < 0 := by
  match l, hp with
  | x :: t, hp =>
    simp only [pymax, Option.some.injEq] at h
    subst h
    rw [foldl_max_neg_iff]
    rintro ⟨hx, ht⟩
    rcases List.mem_cons.1 hp with h | h
    · exact absurd (h ▸ hx) (not_lt.2 hp0)
    · exact absurd (ht p h) (not_lt.2 hp0)

/-! ### Step lemmas for the `select_features` scan -/

/-- A record on which no stop condition fires is scanned past: the loop
continues on the rest of the trace with the initial features captured. -/
theorem scanLoop_cons_of_noStop (threshold : ℚ) (direction : String)
    (init0 : Option (List Int)) (r : IterationResult) (rest : List IterationResult)
    (te : ℚ) (fs : List (Int × ℚ))
    (hdir : direction = "forward" ∨ direction = "backward")
    (hTE : r.TE = some te) (hfs : r.feature_scores = some fs) (hle : te ≤ threshold)
    (hb : direction = "backward" → ∃ p ∈ valuesList fs, p ≤ 0)
    (hf : direction = "forward" → ∃ p ∈ valuesList fs, 0 ≤ p) :
    scanLoop threshold direction false init0 (r :: rest) =
      scanLoop threshold direction false (some (init0.getD (keysList fs))) rest := by
  have hnlt : ¬ threshold < te := not_lt.2 hle
  rcases hdir with hd | hd <;> subst hd
  · obtain ⟨p, hp, hp0⟩ := hf rfl
    match hv : valuesList fs with
    | [] => rw [hv] at hp; cases hp
    | x :: t =>
      have hm : ¬ (t.foldl max x) < 0 :=
        pymax_not_neg (l := x :: t) rfl (hv ▸ hp) hp0
      simp [scanLoop, hTE, hfs, hv, pymax, hnlt, hm]
  · obtain ⟨p, hp, hp0⟩ := hb rfl
    match hv : valuesList fs with
    | [] => rw [hv] at hp; cases hp
    | x :: t =>
      have hm : ¬ 0 < (t.foldl min x) :=
        pymin_not_pos (l := x :: t) rfl (hv ▸ hp) hp0
      simp [scanLoop, hTE, hfs, hv, pymin, hnlt, hm]

/-- A record whose aggregate score strictly exceeds the threshold stops the
scan (for a valid direction and a record with a non-empty dict), returning
the direction's selection. -/
theorem scanLoop_cons_of_thresholdStop (threshold : ℚ) (direction : String)
    (stop : Bool) (init0 : Option (List Int)) (r : IterationResult)
    (rest : List IterationResult) (te : ℚ) (fs : List (Int × ℚ))
    (hdir : direction = "forward" ∨ direction = "backward")
    (hTE : r.TE = some te) (hfs : r.feature_scores = some fs)
    (hne : fs ≠ []) (hlt : threshold < te) :
    scanLoop threshold direction stop init0 (r :: rest) =
      .ok (.stopped (stopSelection direction (init0.getD (keysList fs)) fs)) := by
  have hv : ∃ x t, valuesList fs = x :: t := by
    match fs, hne with
    | q :: l, _ => exact ⟨q.2, (valuesList l), rfl⟩
  obtain ⟨x, t, hv⟩ := hv
  rcases hdir with hd | hd <;> subst hd
  · by_cases hm : (t.foldl max x) < 0 <;>
      simp [scanLoop, hTE, hfs, hv, pymax, hlt, hm, stopSelection]
  · by_cases hm : 0 < (t.foldl min x) <;>
      simp [scanLoop, hTE, hfs, hv, pymin, hlt, hm, stopSelection]

/-- A record whose feature scores are all strictly negative stops a forward
scan, returning the complement of its keys in the initial universe. -/
theorem scanLoop_cons_of_forwardSignStop (threshold : ℚ) (stop : Bool)
    (init0 : Option (List Int)) (r : IterationResult)
    (rest : List IterationResult) (te : ℚ) (fs : List (Int × ℚ))
    (hTE : r.TE = some te) (hfs : r.feature_scores = some fs)
    (hne : fs ≠ []) (hall : ∀ v ∈ valuesList fs, v < 0) :
    scanLoop threshold "forward" stop init0 (r :: rest) =
      .ok (.stopped ((init0.getD (keysList fs)).toFinset \ keysFinset fs)) := by
  have hv : ∃ x t, valuesList fs = x :: t := by
    match fs, hne with
    | q :: l, _ => exact ⟨q.2, (valuesList l), rfl⟩
  obtain ⟨x, t, hv⟩ := hv
  have hm : (t.foldl max x) < 0 := by
    rw [foldl_max_neg_iff]
    exact ⟨hall x (hv ▸ List.mem_cons_self x t),
      fun v hvt => hall v (hv ▸ List.mem_cons_of_mem x hvt)⟩
  by_cases hlt : threshold < te <;>
    simp [scanLoop, hTE, hfs, hv, pymax, hlt, hm]

/-- A trace of records on which no stop condition fires is scanned to the
end without touching the already-captured initial features. -/
theorem scanLoop_exhausts (threshold : ℚ) (direction : String)
    (hdir : direction = "forward" ∨ direction = "backward")
    (l : List IterationResult)
    (hns : ∀ r ∈ l, NoStopRecord threshold direction r) :
    ∀ init : List Int,
      scanLoop threshold direction false (some init) l =
        .ok (.exhausted (some init)) := by
  induction l with
  | nil => intro init; rfl
  | cons r t ih =>
    intro init
    obtain ⟨te, fs, hTE, hfs, hle, hbb, hff⟩ := hns r (List.mem_cons_self r t)
    rw [scanLoop_cons_of_noStop threshold direction (some init) r t te fs hdir
      hTE hfs hle hbb hff]
    exact ih (fun q hq => hns q (List.mem_cons_of_mem r hq)) init

/-! ### Provenance lemmas for the scan results -/

/-- Whatever a forward scan returns at a stop, it is a subset of the
already-captured initial features. -/
theorem scanLoop_forward_stopped_subset (threshold : ℚ) (l : List IterationResult) :
    ∀ (stop : Bool) (init : List Int) (s : Finset Int),
      scanLoop threshold "forward" stop (some init) l = .ok (.stopped s) →
      s ⊆ init.toFinset := by
  induction l with
  | nil => intro stop init s h; simp [scanLoop] at h
  | cons r t ih =>
    intro stop init s h
    cases hTE : r.TE with
    | none => simp [scanLoop, hTE] at h
    | some te =>
      cases hfs : r.feature_scores with
      | none => simp [scanLoop, hTE, hfs] at h
      | some fs =>
        match hv : valuesList fs with
        | [] => simp [scanLoop, hTE, hfs, hv, pymax] at h
        | x :: tv =>
          by_cases hm : (tv.foldl max x) < 0 <;>
            by_cases hlt : threshold < te <;> cases stop <;>
            simp [scanLoop, hTE, hfs, hv, pymax, hm, hlt] at h <;>
            first
              | (exact h ▸ Finset.sdiff_subset)
              | (exact ih _ _ _ h)

/-- A forward scan that exhausts the trace leaves the already-captured
initial features unchanged. -/
theorem scanLoop_forward_exhausted_init (threshold : ℚ) (l : List IterationResult) :
    ∀ (stop : Bool) (init : List Int) (i : Option (List Int)),
      scanLoop threshold "forward" stop (some init) l = .ok (.exhausted i) →
      i = some init := by
  induction l with
  | nil =>
    intro stop init i h
    simp [scanLoop] at h
    exact h.symm
  | cons r t ih =>
    intro stop init i h
    cases hTE : r.TE with
    | none => simp [scanLoop, hTE] at h
    | some te =>
      cases hfs : r.feature_scores with
      | none => simp [scanLoop, hTE, hfs] at h
      | some fs =>
        match hv : valuesList fs with
        | [] => simp [scanLoop, hTE, hfs, hv, pymax] at h
        | x :: tv =>
          by_cases hm : (tv.foldl max x) < 0 <;>
            by_cases hlt : threshold < te <;> cases stop <;>
            simp [scanLoop, hTE, hfs, hv, pymax, hm, hlt] at h <;>
            exact ih _ _ _ h

/-- Whatever a backward scan returns at a stop is the key set of one of
the scanned records. -/
theorem scanLoop_backward_stopped_mem (threshold : ℚ) (l : List IterationResult) :
    ∀ (stop : Bool) (init0 : Option (List Int)) (s : Finset Int),
      scanLoop threshold "backward" stop init0 l = .ok (.stopped s) →
      s ∈ traceKeySets l := by
  induction l with
  | nil => intro stop init0 s h; simp [scanLoop] at h
  | cons r t ih =>
    intro stop init0 s h
    cases hTE : r.TE with
    | none => simp [scanLoop, hTE] at h
    | some te =>
      cases hfs : r.feature_scores with
      | none => simp [scanLoop, hTE, hfs] at h
      | some fs =>
        match hv : valuesList fs with
        | [] => simp [scanLoop, hTE, hfs, hv, pymin] at h
        | x :: tv =>
          by_cases hm : 0 < (tv.foldl min x) <;>
            by_cases hlt : threshold < te <;> cases stop <;>
            simp [scanLoop, hTE, hfs, hv, pymin, hm, hlt] at h <;>
            simp [traceKeySets, List.filterMap_cons, hfs] <;>
            first
              | (exact Or.inl h.symm)
              | (exact Or.inr (by
                  have := ih _ _ _ h
                  simpa [traceKeySets] using this))

/-- The last element of a list, when it exists, is a member. -/
theorem mem_of_getLast?_eq_some {α : Type} {l : List α} {a : α}
    (h : l.getLast? = some a) : a ∈ l := by
  obtain ⟨hne, heq⟩ :=
    List.mem_getLast?_eq_getLast (l := l) (x := a) (Option.mem_def.2 h)
  exact heq ▸ l.getLast_mem hne

/-- The key set of the last record of a trace is one of the trace's key
sets. -/
theorem keysFinset_getLast?_mem_traceKeySets {l : List IterationResult}
    {last : IterationResult} {fs : List (Int × ℚ)}
    (hl : l.getLast? = some last) (hfs : last.feature_scores = some fs) :
    keysFinset fs ∈ traceKeySets l :=
  List.mem_filterMap.2 ⟨last, mem_of_getLast?_eq_some hl, by simp [hfs]⟩

/-! ### Lemmas for the `select_n_features` loops -/

/-- The backward counting loop returns the keys of the first record whose
key-count is `n`, and the implicit `None` when there is none. -/
theorem backwardCountLoop_eq_firstRecord (n : Int) (l : List IterationResult)
    (hdicts : ∀ r ∈ l, ∃ fs, r.feature_scores = some fs) :
    (∀ r fs, firstRecordWithCount n l = some r → r.feature_scores = some fs →
        backwardCountLoop n l = .ok (keysFinset fs)) ∧
    (firstRecordWithCount n l = none →
        backwardCountLoop n l = .error .returnedNone) := by
  induction l with
  | nil => exact ⟨fun r fs h => (nomatch h), fun _ => rfl⟩
  | cons a t ih =>
    obtain ⟨fsa, hfsa⟩ := hdicts a (List.mem_cons_self a t)
    have iht := ih fun q hq => hdicts q (List.mem_cons_of_mem a hq)
    by_cases hc : ((keysList fsa).length : Int) = n
    · refine ⟨fun r fs hfind hfs => ?_, fun hfind => ?_⟩
      · rw [show firstRecordWithCount n (a :: t) = some a by
          simp [firstRecordWithCount, List.find?_cons, hfsa, hc]] at hfind
        cases hfind
        rw [hfsa] at hfs
        cases hfs
        simp [backwardCountLoop, hfsa, hc]
      · rw [show firstRecordWithCount n (a :: t) = some a by
          simp [firstRecordWithCount, List.find?_cons, hfsa, hc]] at hfind
        cases hfind
    · have hstep : firstRecordWithCount n (a :: t) = firstRecordWithCount n t := by
        simp [firstRecordWithCount, List.find?_cons, hfsa, hc]
      refine ⟨fun r fs hfind hfs => ?_, fun hfind => ?_⟩
      · rw [hstep] at hfind
        rw [show backwardCountLoop n (a :: t) = backwardCountLoop n t by
          simp [backwardCountLoop, hfsa, hc]]
        exact iht.1 r fs hfind hfs
      · rw [hstep] at hfind
        rw [show backwardCountLoop n (a :: t) = backwardCountLoop n t by
          simp [backwardCountLoop, hfsa, hc]]
        exact iht.2 hfind

/-- A prefix of records on which no stop condition fires is scanned past
entirely. -/
theorem scanLoop_append_of_noStop (threshold : ℚ) (direction : String)
    (hdir : direction = "forward" ∨ direction = "backward")
    (pre : List IterationResult)
    (hpre : ∀ p ∈ pre, NoStopRecord threshold direction p) :
    ∀ (init0 : Option (List Int)) (tail : List IterationResult),
      ∃ init1, scanLoop threshold direction false init0 (pre ++ tail) =
        scanLoop threshold direction false init1 tail := by
  induction pre with
  | nil => exact fun init0 tail => ⟨init0, rfl⟩
  | cons a t ih =>
    intro init0 tail
    obtain ⟨te, fs, hTE, hfs, hle, hb, hf⟩ := hpre a (List.mem_cons_self a t)
    rw [List.cons_append, scanLoop_cons_of_noStop threshold direction init0 a
      (t ++ tail) te fs hdir hTE hfs hle hb hf]
    exact ih (fun q hq => hpre q (List.mem_cons_of_mem a hq)) _ tail

/-- Scanning a record whose aggregate score is non-numeric, or whose
feature scores are not a dict or are an empty dict, fails with an
`InvalidRecord`-class error. -/
theorem scanLoop_cons_of_badRecord (threshold : ℚ) (direction : String)
    (init0 : Option (List Int)) (r : IterationResult)
    (rest : List IterationResult)
    (hdir : direction = "forward" ∨ direction = "backward")
    (hbad : r.TE = none ∨ r.feature_scores = none ∨ r.feature_scores = some []) :
    ∃ e, isInvalidRecord e = true ∧
      scanLoop threshold direction false init0 (r :: rest) = .error e := by
  rcases hbad with hb | hb | hb
  · exact ⟨.assertTENotNumber, rfl, by simp [scanLoop, hb]⟩
  · cases hTE : r.TE with
    | none => exact ⟨.assertTENotNumber, rfl, by simp [scanLoop, hTE]⟩
    | some te => exact ⟨.assertFeatureScoresNotDict, rfl, by simp [scanLoop, hTE, hb]⟩
  · cases hTE : r.TE with
    | none => exact ⟨.assertTENotNumber, rfl, by simp [scanLoop, hTE]⟩
    | some te =>
      rcases hdir with hd | hd <;> subst hd <;>
        exact ⟨.valueErrorEmptyMinMax, rfl,
          by simp [scanLoop, hTE, hb, valuesList, pymax, pymin]⟩

/-- Case analysis of the first step of a forward scan: a stop anywhere in
the trace selects a subset of the first record's keys, and an exhausted
scan carries the first record's keys as the initial features. -/
theorem scanLoop_forward_entry (threshold : ℚ) (r0 : IterationResult)
    (rest : List IterationResult) (fs0 : List (Int × ℚ)) (out : ScanOutcome)
    (hfs0 : r0.feature_scores = some fs0)
    (h : scanLoop threshold "forward" false none (r0 :: rest) = .ok out) :
    (∀ s, out = .stopped s → s ⊆ keysFinset fs0) ∧
    (∀ i, out = .exhausted i → i = some (keysList fs0)) := by
  cases hTE : r0.TE with
  | none => simp [scanLoop, hTE] at h
  | some te =>
    match hv : valuesList fs0 with
    | [] => simp [scanLoop, hTE, hfs0, hv, pymax] at h
    | x :: tv =>
      by_cases hm : (tv.foldl max x) < 0 <;> by_cases hlt : threshold < te <;>
        simp [scanLoop, hTE, hfs0, hv, pymax, hm, hlt] at h
      all_goals
        first
          | (refine ⟨fun s hs => ?_, fun i hi => ?_⟩
             · rw [← h] at hs
               injection hs with hs
               rw [← hs, keysFinset]
               exact Finset.sdiff_subset
             · rw [← h] at hi
               cases hi)
          | (refine ⟨fun s hs => ?_, fun i hi => ?_⟩
             · subst hs
               have := scanLoop_forward_stopped_subset threshold rest false
                 (keysList fs0) s h
               rwa [keysFinset]
             · subst hi
               exact scanLoop_forward_exhausted_init threshold rest false
                 (keysList fs0) i h)

/-! ### Claim theorems -/

/-- Claim C1: the ThresholdSelector's score-based stop condition fires on
a record exactly when its `aggregateScore` is strictly greater than the
threshold. On a record whose sign-based condition cannot fire (its feature
scores contain a non-positive and a non-negative value), the scan stops at
that record and returns the direction's selection precisely when
`threshold < te`; for `te ≤ threshold` — in particular at equality — the
record is scanned past and the loop continues on the rest of the trace. -/
theorem threshold_stop_iff_strict (threshold te : ℚ) (direction : String)
    (r : IterationResult) (rest : List IterationResult) (fs : List (Int × ℚ))
    (hdir : direction = "forward" ∨ direction = "backward")
    (hTE : r.TE = some te) (hfs : r.feature_scores = some fs)
    (hneg : ∃ p ∈ valuesList fs, p ≤ 0) (hpos : ∃ p ∈ valuesList fs, 0 ≤ p) :
    (threshold < te →
      select_features (r :: rest) threshold direction =
        .ok (stopSelection direction (keysList fs) fs)) ∧
    (te ≤ threshold →
      scanLoop threshold direction false none (r :: rest) =
        scanLoop threshold direction false (some (keysList fs)) rest) := by
  have hne : fs ≠ [] := by
    obtain ⟨p, hp, _⟩ := hneg
    intro h
    rw [h] at hp
    cases hp
  constructor
  · intro hlt
    have hscan := scanLoop_cons_of_thresholdStop threshold direction false none r
      rest te fs hdir hTE hfs hne hlt
    rcases hdir with hd | hd <;> subst hd <;> simp [select_features, hscan]
  · intro hle
    exact scanLoop_cons_of_noStop threshold direction none r rest te fs hdir hTE
      hfs hle (fun _ => hneg) (fun _ => hpos)

theorem threshold_stop_iff_strict_witness :
    select_features [⟨some 1, some [(0, 1), (1, -1)]⟩] 0 "backward" =
        .ok (stopSelection "backward" (keysList [(0, 1), (1, -1)]) [(0, 1), (1, -1)]) ∧
    scanLoop 0 "backward" false none [⟨some 0, some [(0, 1), (1, -1)]⟩] =
        scanLoop 0 "backward" false (some (keysList [(0, 1), (1, -1)])) [] :=
  ⟨(threshold_stop_iff_strict 0 1 "backward" ⟨some 1, some [(0, 1), (1, -1)]⟩ []
      [(0, 1), (1, -1)] (Or.inr rfl) rfl rfl
      ⟨-1, by decide, by decide⟩ ⟨1, by decide, by decide⟩).1 (by decide),
    (threshold_stop_iff_strict 0 0 "backward" ⟨some 0, some [(0, 1), (1, -1)]⟩ []
      [(0, 1), (1, -1)] (Or.inr rfl) rfl rfl
      ⟨-1, by decide, by decide⟩ ⟨1, by decide, by decide⟩).2 (by decide)⟩

/-- Claim C2: on a non-empty trace on which no record triggers a stop
condition (every aggregate score is at most the threshold, and the
backward sign condition never holds), the backward selection returns the
key set of the last record of the trace — which is also not empty. -/
theorem backward_fallback_returns_last (threshold : ℚ)
    (results : List IterationResult) (last : IterationResult)
    (fs : List (Int × ℚ))
    (hns : ∀ r ∈ results, NoStopRecord threshold "backward" r)
    (hlast : results.getLast? = some last)
    (hfs : last.feature_scores = some fs) :
    select_features results threshold "backward" = .ok (keysFinset fs) ∧
      keysFinset fs ≠ ∅ := by
  constructor
  · cases results with
    | nil => cases hlast
    | cons r0 rest =>
      obtain ⟨te0, fs0, hTE0, hfs0, hle0, hb0, hf0⟩ :=
        hns r0 (List.mem_cons_self r0 rest)
      have h1 := scanLoop_cons_of_noStop threshold "backward" none r0 rest te0
        fs0 (Or.inr rfl) hTE0 hfs0 hle0 hb0 hf0
      have h2 := scanLoop_exhausts threshold "backward" (Or.inr rfl) rest
        (fun q hq => hns q (List.mem_cons_of_mem r0 hq)) (keysList fs0)
      simp only [Option.getD_none] at h1
      simp [select_features, h1, h2, hlast, hfs]
  · obtain ⟨tel, fsl, hTEl, hfsl, _, hbl, _⟩ :=
      hns last (mem_of_getLast?_eq_some hlast)
    rw [hfs] at hfsl
    injection hfsl with heq
    subst heq
    obtain ⟨p, hp, _⟩ := hbl rfl
    match fs, hp with
    | q :: l, _ =>
      simp only [keysFinset, keysList, List.map_cons, List.toFinset_cons]
      exact Finset.insert_ne_empty _ _

theorem backward_fallback_returns_last_witness :
    select_features
        [⟨some 0, some [(0, 1), (1, -1)]⟩, ⟨some 0, some [(7, -2)]⟩]
        0 "backward" = .ok (keysFinset [(7, -2)]) ∧
      keysFinset [((7 : Int), (-2 : ℚ))] ≠ ∅ :=
  backward_fallback_returns_last 0
    [⟨some 0, some [(0, 1), (1, -1)]⟩, ⟨some 0, some [(7, -2)]⟩]
    ⟨some 0, some [(7, -2)]⟩ [(7, -2)]
    (by
      intro r hr
      simp only [List.mem_cons, List.not_mem_nil, or_false] at hr
      rcases hr with h | h <;> subst h
      · exact ⟨0, [(0, 1), (1, -1)], rfl, rfl, le_refl 0,
          fun _ => ⟨-1, by decide, by decide⟩, fun h => absurd h (by decide)⟩
      · exact ⟨0, [(7, -2)], rfl, rfl, le_refl 0,
          fun _ => ⟨-2, by decide, by decide⟩, fun h => absurd h (by decide)⟩)
    (by decide) rfl

/-- Claim C3: on a non-empty trace on which no record triggers a stop
condition (every aggregate score is at most the threshold, and the forward
sign condition never holds), the forward selection returns the full
initial universe: the key set of the first record's feature scores. -/
theorem forward_fallback_returns_universe (threshold : ℚ)
    (r0 : IterationResult) (rest : List IterationResult)
    (fs0 : List (Int × ℚ)) (hfs0 : r0.feature_scores = some fs0)
    (hns : ∀ r ∈ r0 :: rest, NoStopRecord threshold "forward" r) :
    select_features (r0 :: rest) threshold "forward" = .ok (keysFinset fs0) := by
  obtain ⟨te0, fs0x, hTE0, hfs0x, hle0, hb0, hf0⟩ :=
    hns r0 (List.mem_cons_self r0 rest)
  rw [hfs0] at hfs0x
  injection hfs0x with heq
  subst heq
  have h1 := scanLoop_cons_of_noStop threshold "forward" none r0 rest te0
    fs0 (Or.inl rfl) hTE0 hfs0 hle0 hb0 hf0
  have h2 := scanLoop_exhausts threshold "forward" (Or.inl rfl) rest
    (fun q hq => hns q (List.mem_cons_of_mem r0 hq)) (keysList fs0)
  simp only [Option.getD_none] at h1
  simp [select_features, h1, h2, keysFinset]

theorem forward_fallback_returns_universe_witness :
    select_features
        [⟨some 0, some [(0, 1), (1, -1)]⟩, ⟨some 0, some [(0, 1), (1, -1), (2, 2)]⟩]
        0 "forward" = .ok (keysFinset [(0, 1), (1, -1)]) :=
  forward_fallback_returns_universe 0 ⟨some 0, some [(0, 1), (1, -1)]⟩
    [⟨some 0, some [(0, 1), (1, -1), (2, 2)]⟩] [(0, 1), (1, -1)] rfl
    (by
      intro r hr
      simp only [List.mem_cons, List.not_mem_nil, or_false] at hr
      rcases hr with h | h <;> subst h
      · exact ⟨0, [(0, 1), (1, -1)], rfl, rfl, le_refl 0,
          fun h => absurd h (by decide), fun _ => ⟨1, by decide, by decide⟩⟩
      · exact ⟨0, [(0, 1), (1, -1), (2, 2)], rfl, rfl, le_refl 0,
          fun h => absurd h (by decide), fun _ => ⟨1, by decide, by decide⟩⟩)

/-- Claim C10: on the empty trace, `select_features` fails for both
directions instead of returning a feature collection: the backward
fallback indexes the last record of an empty sequence and the forward
fallback iterates the never-captured initial features. -/
theorem empty_trace_never_returns (threshold : ℚ) :
    select_features [] threshold "backward" = .error .indexErrorEmptyResults ∧
    select_features [] threshold "forward" = .error .typeErrorNoneNotIterable :=
  ⟨rfl, rfl⟩

theorem empty_trace_never_returns_witness :
    select_features [] 3 "backward" = .error .indexErrorEmptyResults ∧
    select_features [] 3 "forward" = .error .typeErrorNoneNotIterable :=
  empty_trace_never_returns 3

/-- Claim C4: the forward sign-stop fires on a record exactly when the
maximum of its feature-score values is strictly negative. When the first
record's values are all strictly negative (maximum `m < 0`), the forward
selection stops at that first record and returns the empty set (the
initial universe minus itself); when `0 ≤ m` and the score-based stop does
not fire either, the record is scanned past. -/
theorem forward_sign_stop_characterization (threshold te : ℚ)
    (r : IterationResult) (rest : List IterationResult)
    (fs : List (Int × ℚ)) (m : ℚ)
    (hTE : r.TE = some te) (hfs : r.feature_scores = some fs)
    (hmax : pymax (valuesList fs) = some m) :
    (m < 0 →
      select_features (r :: rest) threshold "forward" = .ok (∅ : Finset Int)) ∧
    (0 ≤ m → te ≤ threshold →
      scanLoop threshold "forward" false none (r :: rest) =
        scanLoop threshold "forward" false (some (keysList fs)) rest) := by
  have hv : ∃ x t, valuesList fs = x :: t := by
    match hfv : valuesList fs, hmax with
    | x :: t, _ => exact ⟨x, t, rfl⟩
  obtain ⟨x, tv, hv⟩ := hv
  have hne : fs ≠ [] := by
    intro hcon
    rw [hcon] at hv
    cases hv
  rw [hv] at hmax
  simp only [pymax, Option.some.injEq] at hmax
  subst hmax
  constructor
  · intro hm
    have hall : ∀ v ∈ valuesList fs, v < 0 := by
      rw [hv]
      have := (foldl_max_neg_iff tv x).1 hm
      exact fun v hvm => (List.mem_cons.1 hvm).elim (fun h => h ▸ this.1)
        (this.2 v)
    have hscan := scanLoop_cons_of_forwardSignStop threshold false none r rest
      te fs hTE hfs hne hall
    simp [select_features, hscan, keysFinset]
  · intro hm hle
    have hex : ∃ p ∈ valuesList fs, 0 ≤ p := by
      by_contra hcon
      push_neg at hcon
      have : tv.foldl max x < 0 := by
        rw [foldl_max_neg_iff]
        exact ⟨hcon x (hv ▸ List.mem_cons_self x tv),
          fun v hvm => hcon v (hv ▸ List.mem_cons_of_mem x hvm)⟩
      exact absurd hm (not_le.2 this)
    exact scanLoop_cons_of_noStop threshold "forward" none r rest te fs
      (Or.inl rfl) hTE hfs hle (fun h => absurd h (by decide))
      (fun _ => hex)

theorem forward_sign_stop_characterization_witness :
    select_features [⟨some 0, some [(0, -1), (1, -2)]⟩] 5 "forward" =
        .ok (∅ : Finset Int) ∧
    scanLoop 0 "forward" false none [⟨some 0, some [(0, 1), (1, -1)]⟩] =
        scanLoop 0 "forward" false (some (keysList [(0, 1), (1, -1)])) [] :=
  ⟨(forward_sign_stop_characterization 5 0 ⟨some 0, some [(0, -1), (1, -2)]⟩ []
      [(0, -1), (1, -2)] (-1) rfl rfl (by decide)).1 (by decide),
    (forward_sign_stop_characterization 0 0 ⟨some 0, some [(0, 1), (1, -1)]⟩ []
      [(0, 1), (1, -1)] 1 rfl rfl (by decide)).2 (by decide) (by decide)⟩

/-- Claim C6: for a valid `n`, the backward CountSelector returns the key
set of the first record whose feature-score key-count equals `n`; when no
record of the trace has key-count `n`, the call ends in the `NotFound`
class of failures (the source's implicit `return None`) instead of
returning a feature collection. -/
theorem count_backward_first_match_or_notfound (n : Int) (r0 : IterationResult)
    (rest : List IterationResult) (fs0 : List (Int × ℚ))
    (hfs0 : r0.feature_scores = some fs0)
    (hdicts : ∀ r ∈ r0 :: rest, ∃ fs, r.feature_scores = some fs)
    (hn1 : 0 < n) (hn2 : n ≤ ((keysList fs0).length : Int)) :
    (∀ r fs, firstRecordWithCount n (r0 :: rest) = some r →
        r.feature_scores = some fs →
        select_n_features (r0 :: rest) n "backward" = .ok (keysFinset fs)) ∧
    (firstRecordWithCount n (r0 :: rest) = none →
        resultIsNotFound (select_n_features (r0 :: rest) n "backward") = true) := by
  have hB := backwardCountLoop_eq_firstRecord n (r0 :: rest) hdicts
  have hsel : select_n_features (r0 :: rest) n "backward" =
      backwardCountLoop n (r0 :: rest) := by
    simp [select_n_features, hfs0, hn1, hn2]
  refine ⟨fun r fs hfind hfs => ?_, fun hfind => ?_⟩
  · rw [hsel]
    exact hB.1 r fs hfind hfs
  · rw [hsel, hB.2 hfind]
    rfl

theorem count_backward_first_match_or_notfound_witness :
    select_n_features
        [⟨some 0, some [(0, 1), (1, 2), (2, 3)]⟩, ⟨some 0, some [(0, 1), (1, 2)]⟩,
          ⟨some 0, some [(0, 1)]⟩] 2 "backward" =
      .ok (keysFinset [(0, 1), (1, 2)]) ∧
    resultIsNotFound
        (select_n_features [⟨some 0, some [(0, 1), (1, 2), (2, 3)]⟩,
          ⟨some 0, some [(0, 1)]⟩] 2 "backward") = true :=
  ⟨(count_backward_first_match_or_notfound 2 ⟨some 0, some [(0, 1), (1, 2), (2, 3)]⟩
      [⟨some 0, some [(0, 1), (1, 2)]⟩, ⟨some 0, some [(0, 1)]⟩]
      [(0, 1), (1, 2), (2, 3)] rfl
      (by
        intro r hr
        simp only [List.mem_cons, List.not_mem_nil, or_false] at hr
        rcases hr with h | h | h <;> subst h <;> exact ⟨_, rfl⟩)
      (by decide) (by decide)).1 ⟨some 0, some [(0, 1), (1, 2)]⟩ [(0, 1), (1, 2)]
      (by decide) rfl,
    (count_backward_first_match_or_notfound 2 ⟨some 0, some [(0, 1), (1, 2), (2, 3)]⟩
      [⟨some 0, some [(0, 1)]⟩] [(0, 1), (1, 2), (2, 3)] rfl
      (by
        intro r hr
        simp only [List.mem_cons, List.not_mem_nil, or_false] at hr
        rcases hr with h | h <;> subst h <;> exact ⟨_, rfl⟩)
      (by decide) (by decide)).2 (by decide)⟩

/-- Claim C7: when the ThresholdSelector reaches a record — every earlier
record having been scanned past without stopping — whose aggregate score
is non-numeric, or whose feature scores are not a dict or are an empty
dict, the call fails with an `InvalidRecord`-class error and returns no
feature collection. -/
theorem threshold_invalid_record_error (threshold : ℚ) (direction : String)
    (pre post : List IterationResult) (r : IterationResult)
    (hdir : direction = "forward" ∨ direction = "backward")
    (hpre : ∀ p ∈ pre, NoStopRecord threshold direction p)
    (hbad : r.TE = none ∨ r.feature_scores = none ∨ r.feature_scores = some []) :
    resultIsInvalidRecord
      (select_features (pre ++ r :: post) threshold direction) = true := by
  obtain ⟨init1, hpass⟩ :=
    scanLoop_append_of_noStop threshold direction hdir pre hpre none (r :: post)
  obtain ⟨e, he, herr⟩ :=
    scanLoop_cons_of_badRecord threshold direction init1 r post hdir hbad
  rcases hdir with hd | hd <;> subst hd <;>
    simp [select_features, hpass, herr, resultIsInvalidRecord, he]

theorem threshold_invalid_record_error_witness :
    resultIsInvalidRecord
      (select_features
        [⟨some 0, some [(0, 1), (1, -1)]⟩, ⟨none, some [(0, 1), (1, -1)]⟩]
        0 "backward") = true :=
  threshold_invalid_record_error 0 "backward" [⟨some 0, some [(0, 1), (1, -1)]⟩]
    [] ⟨none, some [(0, 1), (1, -1)]⟩ (Or.inr rfl)
    (by
      intro p hp
      simp only [List.mem_cons, List.not_mem_nil, or_false] at hp
      subst hp
      exact ⟨0, [(0, 1), (1, -1)], rfl, rfl, le_refl 0,
        fun _ => ⟨-1, by decide, by decide⟩, fun h => absurd h (by decide)⟩)
    (Or.inl rfl)

/-- Claim C8: the CountSelector rejects an `n` outside
`[1, totalFeatureCount]` — where `totalFeatureCount` is the key-count of
the first record's feature scores — with an `InvalidArgument`-class
failure, before scanning the trace (the rest of the trace is irrelevant to
the failure). -/
theorem count_invalid_n_error (n : Int) (direction : String)
    (r0 : IterationResult) (fs0 : List (Int × ℚ))
    (hdir : direction = "forward" ∨ direction = "backward")
    (hfs0 : r0.feature_scores = some fs0)
    (hn : n ≤ 0 ∨ ((keysList fs0).length : Int) < n) :
    ∀ rest : List IterationResult,
      resultIsInvalidArgument (select_n_features (r0 :: rest) n direction) = true := by
  intro rest
  by_cases hle : n ≤ ((keysList fs0).length : Int)
  · have hn0 : ¬ 0 < n := by
      rcases hn with h | h
      · exact not_lt.2 h
      · exact absurd hle (not_le.2 h)
    rcases hdir with hd | hd <;> subst hd <;>
      simp [select_n_features, hfs0, hle, hn0, resultIsInvalidArgument,
        isInvalidArgument]
  · rcases hdir with hd | hd <;> subst hd <;>
      simp [select_n_features, hfs0, hle, resultIsInvalidArgument,
        isInvalidArgument]

theorem count_invalid_n_error_witness :
    resultIsInvalidArgument
        (select_n_features [⟨some 0, some [(0, 1), (1, 2)]⟩] 0 "forward") = true ∧
    resultIsInvalidArgument
        (select_n_features [⟨some 0, some [(0, 1), (1, 2)]⟩] 3 "backward") = true :=
  ⟨count_invalid_n_error 0 "forward" ⟨some 0, some [(0, 1), (1, 2)]⟩
      [(0, 1), (1, 2)] (Or.inl rfl) rfl (Or.inl (by decide)) [],
    count_invalid_n_error 3 "backward" ⟨some 0, some [(0, 1), (1, 2)]⟩
      [(0, 1), (1, 2)] (Or.inr rfl) rfl (Or.inr (by decide)) []⟩

/-- Claim C9 counterexample: the returned set is not always a subset of
the first record's key set. On this trace the second record's aggregate
score exceeds the threshold, so the backward selection returns that
record's key set `{5}`, which is not contained in the first record's
universe `{0, 1}`. -/
theorem threshold_result_subset_counterexample :
    select_features
        [⟨some 0, some [(0, 1), (1, -1)]⟩, ⟨some 100, some [(5, -1)]⟩]
        50 "backward" = .ok {5} ∧
    ¬ (({5} : Finset Int) ⊆ keysFinset [((0 : Int), (1 : ℚ)), (1, -1)]) := by
  exact ⟨by decide, by decide⟩

/-- Claim C9 amended: the forward selection only ever returns subsets of
the first record's key set (the initial universe), while the backward
selection returns the key set of some record of the trace — which is
inside the initial universe only when the trace's key sets shrink, an
invariant the code assumes but does not enforce. -/
theorem threshold_result_provenance (threshold : ℚ) (r0 : IterationResult)
    (rest : List IterationResult) (fs0 : List (Int × ℚ)) (s : Finset Int)
    (hfs0 : r0.feature_scores = some fs0) :
    (select_features (r0 :: rest) threshold "forward" = .ok s →
      s ⊆ keysFinset fs0) ∧
    (select_features (r0 :: rest) threshold "backward" = .ok s →
      s ∈ traceKeySets (r0 :: rest)) := by
  constructor
  · intro h
    cases hscan : scanLoop threshold "forward" false none (r0 :: rest) with
    | error e => simp [select_features, hscan] at h
    | ok out =>
      have hentry := scanLoop_forward_entry threshold r0 rest fs0 out hfs0 hscan
      cases out with
      | stopped s' =>
        have hs : s = s' := by
          simp [select_features, hscan] at h
          exact h.symm
        exact hs ▸ hentry.1 s' rfl
      | exhausted i =>
        have hi := hentry.2 i rfl
        subst hi
        have hs : s = (keysList fs0).toFinset := by
          simp [select_features, hscan] at h
          exact h.symm
        rw [hs, keysFinset]
  · intro h
    cases hscan : scanLoop threshold "backward" false none (r0 :: rest) with
    | error e => simp [select_features, hscan] at h
    | ok out =>
      cases out with
      | stopped s' =>
        have hs : s = s' := by
          simp [select_features, hscan] at h
          exact h.symm
        exact hs ▸
          scanLoop_backward_stopped_mem threshold (r0 :: rest) false none s' hscan
      | exhausted i =>
        have hlast := List.getLast?_eq_getLast_of_ne_nil (l := r0 :: rest)
          (List.cons_ne_nil r0 rest)
        cases hfsl : ((r0 :: rest).getLast (List.cons_ne_nil r0 rest)).feature_scores with
        | none => simp [select_features, hscan, hlast, hfsl] at h
        | some fsl =>
          have hs : s = keysFinset fsl := by
            simp [select_features, hscan, hlast, hfsl] at h
            exact h.symm
          rw [hs]
          exact keysFinset_getLast?_mem_traceKeySets hlast hfsl

theorem threshold_result_provenance_witness :
    (({0, 1} : Finset Int) ⊆ keysFinset [((0 : Int), (1 : ℚ)), (1, -1)]) ∧
    (({0, 1} : Finset Int) ∈
      traceKeySets [(⟨some 0, some [(0, 1), (1, -1)]⟩ : IterationResult)]) :=
  ⟨(threshold_result_provenance 0 ⟨some 0, some [(0, 1), (1, -1)]⟩ []
      [(0, 1), (1, -1)] {0, 1} rfl).1 (by decide),
    (threshold_result_provenance 0 ⟨some 0, some [(0, 1), (1, -1)]⟩ []
      [(0, 1), (1, -1)] {0, 1} rfl).2 (by decide)⟩

/-- Claim C5 counterexample: on the spec's example trace — records with
feature scores `{}`, `{0: 0.5}`, `{0: 0.5, 1: 0.3}` — the forward
CountSelector with `n = 1` raises rather than returning `{1}`. -/
theorem count_forward_example_counterexample :
    select_n_features
        [⟨some 0, some []⟩, ⟨some 0, some [(0, 1/2)]⟩,
          ⟨some 0, some [(0, 1/2), (1, 3/10)]⟩] 1 "forward" =
        .error .assertNGreaterThanTotal ∧
    select_n_features
        [⟨some 0, some []⟩, ⟨some 0, some [(0, 1/2)]⟩,
          ⟨some 0, some [(0, 1/2), (1, 3/10)]⟩] 1 "forward" ≠
      .ok ({1} : Finset Int) := by
  exact ⟨by decide, by decide⟩

/-- Claim C5 amended: on that trace the call fails with an
`InvalidArgument`-class error before any scan: `totalFeatureCount` is the
key-count of the **first** record's feature scores, which is `{}`, so
`num_total_features = 0` and the assertion `n <= num_total_features`
fails for `n = 1`. -/
theorem count_forward_example_actual :
    select_n_features
        [⟨some 0, some []⟩, ⟨some 0, some [(0, 1/2)]⟩,
          ⟨some 0, some [(0, 1/2), (1, 3/10)]⟩] 1 "forward" =
        .error .assertNGreaterThanTotal ∧
      isInvalidArgument .assertNGreaterThanTotal = true := by
  exact ⟨by decide, rfl⟩

end Tefs
